import Mathlib

/-!
Verification of the text aggregation and filtering engine of the
reddit-analysis repository (word_freqs.py): token normalization,
the word-frequency accumulator, the per-block anti-spam threshold,
traversal with per-item error recovery, and the output filter.
-/

namespace RedditAnalysis

/-- Whitespace characters recognized by Python str.split() on a str:
space, tab, newline, vertical tab, form feed, carriage return. -/
def pyIsSpace (c : Char) : Bool :=
  decide (c.toNat = 32 ∨ c.toNat = 9 ∨ c.toNat = 10 ∨ c.toNat = 11 ∨
    c.toNat = 12 ∨ c.toNat = 13)

/-- Membership in the PUNCTUATION constant of word_freqs.py:
a space, all of string.punctuation (the ASCII punctuation ranges
33-47, 58-64, 91-96, 123-126), and a newline. -/
def isStripChar (c : Char) : Bool :=
  decide (c.toNat = 32 ∨ c.toNat = 10 ∨
    (33 ≤ c.toNat ∧ c.toNat ≤ 47) ∨ (58 ≤ c.toNat ∧ c.toNat ≤ 64) ∨
    (91 ≤ c.toNat ∧ c.toNat ≤ 96) ∨ (123 ≤ c.toNat ∧ c.toNat ≤ 126))

/-- ASCII lowercasing of one character, as str.lower() does per character. -/
def pyLower (c : Char) : Char :=
  if 65 ≤ c.toNat ∧ c.toNat ≤ 90 then Char.ofNat (c.toNat + 32) else c

/-- Python str.strip(PUNCTUATION): remove characters of the class from
both ends of the character list. -/
def pyStrip (l : List Char) : List Char :=
  ((l.dropWhile isStripChar).reverse.dropWhile isStripChar).reverse

/-- Token normalization used everywhere in word_freqs.py:
word.strip(PUNCTUATION).lower(). -/
def normalize (s : String) : String :=
  String.mk ((pyStrip s.data).map pyLower)

/-- Worker for pySplit: walks the characters keeping the (reversed)
current token, closing a token at each whitespace run. -/
def splitLoop : List Char → List Char → List (List Char)
  | [], cur => if cur.isEmpty then [] else [cur.reverse]
  | c :: rest, cur =>
    if pyIsSpace c then
      (if cur.isEmpty then splitLoop rest [] else cur.reverse :: splitLoop rest [])
    else splitLoop rest (c :: cur)

/-- Python text.split() with no argument: split on whitespace runs,
producing no empty tokens. -/
def pySplit (s : String) : List String :=
  (splitLoop s.data []).map String.mk

/-- The popular_words defaultdict(int) of word_freqs.py, as an
association list from word to count; absent words count 0. -/
abbrev Accum := List (String × Nat)

/-- Reads a count from the accumulator; a missing key reads as 0,
as in defaultdict(int). -/
def lookup : Accum → String → Nat
  | [], _ => 0
  | (k, v) :: rest, x => if x = k then v else lookup rest x

/-- Increment of an entry, popular_words[word] += n, on the association
list: update the existing entry, or append a fresh entry holding n. -/
def bump : Accum → String → Nat → Accum
  | [], w, n => [(w, n)]
  | (k, v) :: rest, w, n =>
    if k = w then (k, v + n) :: rest else (k, v) :: bump rest w n

/-- The option fields of word_freqs.py that parse_text consults. -/
structure RunOptions where
  max_threshold : ℚ
  count_word_freqs : Bool

/-- The spam-ratio test of parse_text: count / total <= options.max_threshold,
with exact-rational arithmetic standing for Python's float division. -/
def ratioLe (c total : Nat) (thr : ℚ) : Prop :=
  (c : ℚ) / (total : ℚ) ≤ thr

/-- Executable decision procedure for ratioLe by integer cross-multiplication
(the total = 0 case matches Mathlib's x / 0 = 0 convention; parse_text
never reaches the comparison with total = 0). -/
def ratioLeB (c total : Nat) (thr : ℚ) : Bool :=
  if total = 0 then decide (0 ≤ thr.num)
  else decide ((c : Int) * (thr.den : Int) ≤ thr.num * (total : Int))

theorem ratioLe_iff_ratioLeB (c total : Nat) (thr : ℚ) :
    ratioLe c total thr ↔ ratioLeB c total thr = true := by
  unfold ratioLe ratioLeB
  rcases Nat.eq_zero_or_pos total with h0 | hpos
  · subst h0
    simp [Rat.num_nonneg]
  · have hne : total ≠ 0 := Nat.pos_iff_ne_zero.mp hpos
    have htQ : (0 : ℚ) < (total : ℚ) := by exact_mod_cast hpos
    have hden : (0 : ℚ) < (thr.den : ℚ) := by exact_mod_cast thr.pos
    have hd0 : ((thr.den : ℚ)) ≠ 0 := ne_of_gt hden
    have key : thr * (thr.den : ℚ) = (thr.num : ℚ) := by
      have h := Rat.num_div_den thr
      rw [div_eq_iff hd0] at h
      exact h.symm
    rw [if_neg hne, decide_eq_true_eq, div_le_iff₀ htQ]
    constructor
    · intro h
      have h2 : (c : ℚ) * thr.den ≤ thr * (total : ℚ) * thr.den :=
        mul_le_mul_of_nonneg_right h hden.le
      rw [mul_right_comm, key] at h2
      exact_mod_cast h2
    · intro h
      have h2 : (c : ℚ) * thr.den ≤ (thr.num : ℚ) * total := by exact_mod_cast h
      have h3 : (c : ℚ) * thr.den ≤ thr * (total : ℚ) * thr.den := by
        rw [mul_right_comm, key]; exact h2
      exact le_of_mul_le_mul_right h3 hden

instance ratioLeDec (c total : Nat) (thr : ℚ) : Decidable (ratioLe c total thr) :=
  decidable_of_iff (ratioLeB c total thr = true) (ratioLe_iff_ratioLeB c total thr).symm

/-- The first loop of parse_text: for each raw token, normalize it,
add 1 to total unconditionally, and count it in the per-block table
text_words only when the normalized word is non-empty and not common. -/
def textWordsLoop (common : List String) : List String → Nat × Accum → Nat × Accum
  | [], st => st
  | tok :: rest, st =>
    let w := normalize tok
    textWordsLoop common rest
      (st.1 + 1, if w ≠ "" ∧ ¬ w ∈ common then bump st.2 w 1 else st.2)

/-- Runs the first loop of parse_text on the tokens of a text block,
yielding the final (total, text_words) pair. -/
def textWords (common : List String) (text : String) : Nat × Accum :=
  textWordsLoop common (pySplit text) (0, [])

/-- The second loop of parse_text: for each (word, count) of text_words,
if count / total <= max_threshold then add count (or 1 when
count_word_freqs is false) to popular_words. -/
def addLoop (opts : RunOptions) (total : Nat) : List (String × Nat) → Accum → Accum
  | [], pop => pop
  | (w, c) :: rest, pop =>
    addLoop opts total rest
      (if ratioLe c total opts.max_threshold then
        bump pop w (if opts.count_word_freqs then c else 1)
      else pop)

/-- parse_text of word_freqs.py: tokenize, build (total, text_words),
then fold the threshold-filtered counts into the accumulator. -/
def parse_text (opts : RunOptions) (common : List String) (pop : Accum)
    (text : String) : Accum :=
  addLoop opts (textWords common text).1 (textWords common text).2 pop

/-- Number of whitespace-split tokens of a block: this is the value the
total variable of parse_text holds when the second loop runs. -/
def tokenTotal (text : String) : Nat := (pySplit text).length

/-- The per-block count text_words holds for word w: the number of tokens
normalizing to w, provided w is non-empty and not a common word
(otherwise w never enters text_words and its count is 0). -/
def localCount (common : List String) (text : String) (w : String) : Nat :=
  if w ≠ "" ∧ ¬ w ∈ common then
    (pySplit text).countP (fun t => normalize t = w)
  else 0

/-- The amount one call of parse_text on a block adds to the accumulator
entry of w. -/
def contrib (opts : RunOptions) (common : List String) (text : String)
    (w : String) : Nat :=
  if 0 < localCount common text w ∧
      ratioLe (localCount common text w) (tokenTotal text) opts.max_threshold then
    (if opts.count_word_freqs then localCount common text w else 1)
  else 0

/-- Modelled from the spec: the denominator §4.2 of the spec describes,
namely the count of tokens that survive normalization to a non-empty
value. Kept only to compare against the denominator the code uses. -/
def specTotal (text : String) : Nat :=
  (pySplit text).countP (fun t => normalize t ≠ "")

/-- Concrete threshold 1/2 written in normal form. -/
def halfQ : ℚ := ⟨1, 2, by decide, by decide⟩

/-- Concrete threshold 2/3 written in normal form. -/
def twoThirdsQ : ℚ := ⟨2, 3, by decide, by decide⟩

/-- Keys of the accumulator, in insertion order (popular_words.keys()). -/
def keysOf (pop : Accum) : List String := pop.map Prod.fst

theorem lookup_bump (w : String) (n : Nat) (x : String) :
    ∀ pop : Accum,
      lookup (bump pop w n) x = lookup pop x + (if x = w then n else 0) := by
  intro pop
  induction pop with
  | nil =>
    by_cases hxw : x = w <;> simp [bump, lookup, hxw]
  | cons p rest ih =>
    obtain ⟨k, v⟩ := p
    by_cases hkw : k = w
    · subst hkw
      by_cases hxk : x = k <;> simp [bump, lookup, hxk]
    · by_cases hxk : x = k
      · subst hxk
        have hxw : ¬ x = w := hkw
        simp [bump, hkw, lookup, hxw]
      · simp [bump, hkw, lookup, hxk, ih]

theorem keysOf_bump (pop : Accum) (w : String) (n : Nat) :
    keysOf (bump pop w n) =
      if w ∈ keysOf pop then keysOf pop else keysOf pop ++ [w] := by
  induction pop with
  | nil => simp [bump, keysOf]
  | cons p rest ih =>
    obtain ⟨k, v⟩ := p
    by_cases hkw : k = w
    · subst hkw
      simp [bump, keysOf]
    · have : w ∈ keysOf ((k, v) :: rest) ↔ w ∈ keysOf rest := by
        simp [keysOf, Ne.symm hkw]
      by_cases hw : w ∈ keysOf rest
      · simp [bump, hkw, keysOf] at ih ⊢
        simp [keysOf] at hw
        simp [hw, Ne.symm hkw] at ih ⊢
        exact ih
      · simp [bump, hkw, keysOf] at ih ⊢
        simp [keysOf] at hw
        simp [hw, Ne.symm hkw] at ih ⊢
        exact ih

theorem nodup_keysOf_bump (pop : Accum) (w : String) (n : Nat)
    (h : (keysOf pop).Nodup) : (keysOf (bump pop w n)).Nodup := by
  rw [keysOf_bump]
  by_cases hw : w ∈ keysOf pop
  · simpa [hw] using h
  · simp only [hw, if_false]
    simp [List.nodup_append, h, hw]

theorem pos_bump (pop : Accum) (w : String) (n : Nat) (hn : 0 < n)
    (h : ∀ p ∈ pop, 0 < p.2) : ∀ p ∈ bump pop w n, 0 < p.2 := by
  induction pop with
  | nil =>
    intro p hp
    simp [bump] at hp
    subst hp
    exact hn
  | cons q rest ih =>
    obtain ⟨k, v⟩ := q
    intro p hp
    by_cases hkw : k = w
    · subst hkw
      simp [bump] at hp
      rcases hp with hp | hp
      · subst hp
        have := h (k, v) (by simp)
        simp at this ⊢
        omega
      · exact h p (by simp [hp])
    · simp [bump, hkw] at hp
      rcases hp with hp | hp
      · subst hp
        exact h (k, v) (by simp)
      · exact ih (fun q hq => h q (by simp [hq])) p hp

theorem lookup_eq_zero_of_not_mem (x : String) :
    ∀ pop : Accum, x ∉ keysOf pop → lookup pop x = 0 := by
  intro pop
  induction pop with
  | nil => intro _; simp [lookup]
  | cons p rest ih =>
    obtain ⟨k, v⟩ := p
    intro h
    simp [keysOf] at h
    simp [lookup, h.1, ih (by simp [keysOf, h.2])]

theorem textWordsLoop_fst (common : List String) :
    ∀ (toks : List String) (st : Nat × Accum),
      (textWordsLoop common toks st).1 = st.1 + toks.length := by
  intro toks
  induction toks with
  | nil => intro st; simp [textWordsLoop]
  | cons tok rest ih =>
    intro st
    simp only [textWordsLoop]
    rw [ih]
    simp [Nat.add_comm, Nat.add_assoc, Nat.add_left_comm]

theorem textWordsLoop_lookup (common : List String) (x : String) :
    ∀ (toks : List String) (st : Nat × Accum),
      lookup (textWordsLoop common toks st).2 x
        = lookup st.2 x +
            (if x ≠ "" ∧ ¬ x ∈ common then
              toks.countP (fun t => normalize t = x)
            else 0) := by
  intro toks
  induction toks with
  | nil => intro st; simp [textWordsLoop]
  | cons tok rest ih =>
    intro st
    simp only [textWordsLoop]
    rw [ih]
    rw [List.countP_cons]
    by_cases hwx : normalize tok = x
    · subst hwx
      by_cases hc : normalize tok ≠ "" ∧ ¬ normalize tok ∈ common
      · rw [if_pos hc, if_pos hc, if_pos hc]
        rw [lookup_bump]
        simp
        omega
      · rw [if_neg hc, if_neg hc, if_neg hc]
    · have hpred : ¬ (decide (normalize tok = x) = true) := by simp [hwx]
      rw [if_neg hpred]
      by_cases hc : normalize tok ≠ "" ∧ ¬ normalize tok ∈ common
      · rw [if_pos hc, lookup_bump]
        have : ¬ x = normalize tok := fun h => hwx h.symm
        simp [this]
      · rw [if_neg hc]
        simp

theorem textWordsLoop_invariant (common : List String) :
    ∀ (toks : List String) (st : Nat × Accum),
      (keysOf st.2).Nodup → (∀ p ∈ st.2, 0 < p.2) →
      (keysOf (textWordsLoop common toks st).2).Nodup ∧
        (∀ p ∈ (textWordsLoop common toks st).2, 0 < p.2) := by
  intro toks
  induction toks with
  | nil => intro st h1 h2; exact ⟨h1, h2⟩
  | cons tok rest ih =>
    intro st h1 h2
    simp only [textWordsLoop]
    by_cases hc : normalize tok ≠ "" ∧ ¬ normalize tok ∈ common
    · rw [if_pos hc]
      exact ih _ (nodup_keysOf_bump _ _ _ h1)
        (pos_bump _ _ _ (by omega) h2)
    · rw [if_neg hc]
      exact ih _ h1 h2

theorem lookup_addLoop (opts : RunOptions) (total : Nat) (x : String) :
    ∀ (tw : List (String × Nat)) (pop : Accum),
      (keysOf tw).Nodup → (∀ p ∈ tw, 0 < p.2) →
      lookup (addLoop opts total tw pop) x
        = lookup pop x +
            (if 0 < lookup tw x ∧ ratioLe (lookup tw x) total opts.max_threshold then
              (if opts.count_word_freqs then lookup tw x else 1)
            else 0) := by
  intro tw
  induction tw with
  | nil => intro pop _ _; simp [addLoop, lookup]
  | cons p rest ih =>
    intro pop hnd hpos
    obtain ⟨k, v⟩ := p
    have hks : keysOf ((k, v) :: rest) = k :: keysOf rest := by simp [keysOf]
    rw [hks] at hnd
    have hknotin : k ∉ keysOf rest := (List.nodup_cons.mp hnd).1
    have hndr : (keysOf rest).Nodup := (List.nodup_cons.mp hnd).2
    have hposr : ∀ p ∈ rest, 0 < p.2 := fun p hp => hpos p (by simp [hp])
    have hv : 0 < v := hpos (k, v) (by simp)
    simp only [addLoop]
    rw [ih _ hndr hposr]
    by_cases hxk : x = k
    · subst hxk
      have hlr : lookup rest x = 0 := lookup_eq_zero_of_not_mem x rest hknotin
      rw [hlr]
      simp only [lookup, if_pos rfl]
      by_cases hacc : ratioLe v total opts.max_threshold
      · rw [if_pos hacc, lookup_bump]
        simp [hacc, hv]
      · rw [if_neg hacc]
        simp [hacc]
    · simp only [lookup, if_neg hxk]
      by_cases hacc : ratioLe v total opts.max_threshold
      · rw [if_pos hacc, lookup_bump]
        simp [hxk]
      · rw [if_neg hacc]

/-- Pointwise characterization of one parse_text call: the entry of w
grows by exactly contrib, which depends only on the block, the common
set and the options. -/
theorem lookup_parse_text (opts : RunOptions) (common : List String)
    (pop : Accum) (text : String) (w : String) :
    lookup (parse_text opts common pop text) w
      = lookup pop w + contrib opts common text w := by
  unfold parse_text contrib localCount tokenTotal textWords
  have hinv := textWordsLoop_invariant common (pySplit text) (0, [])
    (by simp [keysOf]) (by simp)
  rw [lookup_addLoop opts _ w _ pop hinv.1 hinv.2,
    textWordsLoop_lookup common w (pySplit text) (0, []),
    textWordsLoop_fst common (pySplit text) (0, [])]
  simp [lookup]

theorem lookup_foldl_parse_text (opts : RunOptions) (common : List String)
    (w : String) :
    ∀ (blocks : List String) (pop : Accum),
      lookup (blocks.foldl (parse_text opts common) pop) w
        = lookup pop w + (blocks.map (fun b => contrib opts common b w)).sum := by
  intro blocks
  induction blocks with
  | nil => intro pop; simp
  | cons b bs ih =>
    intro pop
    simp only [List.foldl_cons, List.map_cons, List.sum_cons]
    rw [ih, lookup_parse_text]
    omega

theorem textWordsLoop_all_empty (common : List String) :
    ∀ (toks : List String) (st : Nat × Accum),
      (∀ t ∈ toks, normalize t = "") →
      textWordsLoop common toks st = (st.1 + toks.length, st.2) := by
  intro toks
  induction toks with
  | nil => intro st _; simp [textWordsLoop]
  | cons tok rest ih =>
    intro st h
    have h0 : normalize tok = "" := h tok (by simp)
    have hcond : ¬ (normalize tok ≠ "" ∧ ¬ normalize tok ∈ common) := by
      simp [h0]
    simp only [textWordsLoop, if_neg hcond]
    rw [ih _ (fun t ht => h t (List.mem_cons_of_mem _ ht))]
    simp [List.length_cons]
    omega

/-- C1: in the spec's concrete scenario (common words {"the","a"}, blocks
["test test the a", "test"], max_threshold 1/2, count_word_freqs true)
the final count of "test" is NOT 3: the one-word second block has local
ratio 1 > 1/2, so it is rejected and contributes nothing. -/
theorem scenario_count_ne_three :
    ¬ lookup ((["test test the a", "test"].foldl
        (parse_text (RunOptions.mk halfQ true) ["the", "a"]) [])) "test" = 3 := by
  decide

/-- C1 (amended): in the spec's concrete scenario the final accumulator
count of "test" is 2 — block 1 contributes 2 (ratio 2/4 = 1/2 accepted,
"the" and "a" common), block 2 contributes 0 (ratio 1/1 > 1/2 rejected). -/
theorem scenario_count_eq_two :
    lookup ((["test test the a", "test"].foldl
        (parse_text (RunOptions.mk halfQ true) ["the", "a"]) [])) "test" = 2 := by
  decide

/-- C2 (counterexample): for the block "test !!" the denominator the code
uses is 2 (all whitespace-split tokens, even "!!" whose normalized form is
empty), not 1 as the claim's rule would give; consequently at threshold 1/2
the word "test" is accepted (ratio 1/2), where the claim's denominator
would reject it (ratio 1/1). -/
theorem total_counts_all_tokens_counterexample :
    (textWords [] "test !!").1 = 2
    ∧ specTotal "test !!" = 1
    ∧ lookup (parse_text (RunOptions.mk halfQ true) [] [] "test !!") "test" = 1 :=
  ⟨by decide, by decide, by decide⟩

/-- C2 (amended): the denominator total that parse_text feeds into the spam
ratio equals the number of ALL whitespace-split tokens of the block —
common words count toward it, and so do tokens whose normalized form is
empty. -/
theorem parse_text_total_all_tokens (opts : RunOptions) (common : List String)
    (pop : Accum) (text : String) :
    (textWords common text).1 = tokenTotal text
    ∧ parse_text opts common pop text
        = addLoop opts (tokenTotal text) (textWords common text).2 pop := by
  have h1 : (textWords common text).1 = tokenTotal text := by
    unfold textWords tokenTotal
    rw [textWordsLoop_fst]
    simp
  exact ⟨h1, by unfold parse_text; rw [h1]⟩

/-- C3: a non-common word with positive local count c is excluded from the
block's contribution (accumulator entry unchanged) iff c / total exceeds
max_threshold; in particular equality c / total = max_threshold is
accepted, because the code compares with <=. -/
theorem parse_text_spam_threshold_iff (opts : RunOptions) (common : List String)
    (pop : Accum) (text : String) (w : String)
    (h : 0 < localCount common text w) :
    lookup (parse_text opts common pop text) w = lookup pop w
      ↔ opts.max_threshold <
          (localCount common text w : ℚ) / (tokenTotal text : ℚ) := by
  rw [lookup_parse_text, ← not_le]
  constructor
  · intro heq hle
    have hc0 : contrib opts common text w = 0 := by omega
    unfold contrib at hc0
    rw [if_pos ⟨h, show ratioLe _ _ _ from hle⟩] at hc0
    cases hcw : opts.count_word_freqs with
    | true => rw [hcw] at hc0; simp at hc0; omega
    | false => rw [hcw] at hc0; simp at hc0
  · intro hgt
    have hc0 : contrib opts common text w = 0 := by
      unfold contrib
      rw [if_neg]
      rintro ⟨_, hr⟩
      exact hgt hr
    omega

/-- C3 witness: boundary block "aa bb" at threshold 1/2 — local count 1 of
total 2, ratio exactly 1/2, so the entry does change (the iff's right side
is false on this input). -/
theorem parse_text_spam_threshold_iff_witness :
    0 < localCount [] "aa bb" "aa"
    ∧ (lookup (parse_text (RunOptions.mk halfQ true) [] [] "aa bb") "aa"
          = lookup [] "aa"
        ↔ (RunOptions.mk halfQ true).max_threshold <
            (localCount [] "aa bb" "aa" : ℚ) / (tokenTotal "aa bb" : ℚ)) :=
  ⟨by decide,
    parse_text_spam_threshold_iff (RunOptions.mk halfQ true) [] [] "aa bb" "aa"
      (by decide)⟩

/-- C6: ingesting any permutation of the same text blocks yields the same
final accumulator mapping — each block's contribution depends only on the
block itself, the common set and the options. -/
theorem parse_text_order_independent (opts : RunOptions) (common : List String)
    (blocks1 blocks2 : List String) (h : blocks1.Perm blocks2)
    (pop : Accum) (w : String) :
    lookup (blocks1.foldl (parse_text opts common) pop) w
      = lookup (blocks2.foldl (parse_text opts common) pop) w := by
  rw [lookup_foldl_parse_text, lookup_foldl_parse_text,
    (h.map (fun b => contrib opts common b w)).sum_eq]

/-- C6 witness: swapping two concrete blocks leaves the count of "b"
unchanged. -/
theorem parse_text_order_independent_witness :
    lookup ((["a b", "c c"].foldl (parse_text (RunOptions.mk halfQ true) []) [])) "b"
      = lookup ((["c c", "a b"].foldl (parse_text (RunOptions.mk halfQ true) []) [])) "b" :=
  parse_text_order_independent (RunOptions.mk halfQ true) [] ["a b", "c c"]
    ["c c", "a b"] (List.Perm.swap "c c" "a b" []) [] "b"

/-- C7: an accepted word's entry grows by its local count c when
count_word_freqs is true, and by exactly 1 when it is false, regardless of
the local repetition count. -/
theorem parse_text_increment_amount (opts : RunOptions) (common : List String)
    (pop : Accum) (text : String) (w : String)
    (h : 0 < localCount common text w)
    (hr : ratioLe (localCount common text w) (tokenTotal text)
      opts.max_threshold) :
    lookup (parse_text opts common pop text) w
      = lookup pop w +
          (if opts.count_word_freqs then localCount common text w else 1) := by
  rw [lookup_parse_text]
  unfold contrib
  rw [if_pos ⟨h, hr⟩]

/-- C7 witness: with count_word_freqs false, the block "x x y" (local count
2 of "x", ratio 2/3 accepted at threshold 2/3) adds exactly 1. -/
theorem parse_text_increment_amount_witness :
    0 < localCount [] "x x y" "x"
    ∧ ratioLe (localCount [] "x x y" "x") (tokenTotal "x x y")
        (RunOptions.mk twoThirdsQ false).max_threshold
    ∧ lookup (parse_text (RunOptions.mk twoThirdsQ false) [] [] "x x y") "x"
        = lookup [] "x" +
            (if (RunOptions.mk twoThirdsQ false).count_word_freqs then
              localCount [] "x x y" "x"
            else 1) :=
  ⟨by decide, by decide,
    parse_text_increment_amount (RunOptions.mk twoThirdsQ false) [] [] "x x y" "x"
      (by decide) (by decide)⟩

/-- C8: a block none of whose tokens survives normalization (empty block or
punctuation-only tokens) produces an empty text_words table — so the second
loop never runs, the ratio division is never evaluated, and the accumulator
is returned unchanged. -/
theorem parse_text_no_surviving_tokens_noop (opts : RunOptions)
    (common : List String) (pop : Accum) (text : String)
    (h : ∀ t ∈ pySplit text, normalize t = "") :
    textWords common text = (tokenTotal text, [])
    ∧ parse_text opts common pop text = pop := by
  have h2 : textWords common text = (tokenTotal text, []) := by
    unfold textWords tokenTotal
    rw [textWordsLoop_all_empty common (pySplit text) (0, []) h]
    simp
  refine ⟨h2, ?_⟩
  unfold parse_text
  rw [h2]
  simp [addLoop]

/-- C8 witness: the punctuation-only block "... !!!" is a no-op on a
non-trivial accumulator. -/
theorem parse_text_no_surviving_tokens_noop_witness :
    (∀ t ∈ pySplit "... !!!", normalize t = "")
    ∧ (textWords ["the"] "... !!!" = (tokenTotal "... !!!", [])
        ∧ parse_text (RunOptions.mk halfQ true) ["the"] [("x", 1)] "... !!!"
            = [("x", 1)]) :=
  ⟨by decide,
    parse_text_no_surviving_tokens_noop (RunOptions.mk halfQ true) ["the"]
      [("x", 1)] "... !!!" (by decide)⟩

/-- C9: accumulator counts never decrease — one parse_text call, and any
sequence of parse_text calls, can only leave an entry unchanged or
increase it. -/
theorem lookup_monotone (opts : RunOptions) (common : List String)
    (pop : Accum) (w : String) :
    (∀ text, lookup pop w ≤ lookup (parse_text opts common pop text) w)
    ∧ (∀ blocks : List String,
        lookup pop w ≤ lookup (blocks.foldl (parse_text opts common) pop) w) := by
  constructor
  · intro text
    rw [lookup_parse_text]
    omega
  · intro blocks
    rw [lookup_foldl_parse_text]
    omega

/-- C10: a non-empty block all of whose tokens normalize to the same
non-common word w has local ratio exactly 1 for w, so for any
max_threshold < 1 the block contributes nothing to w's entry. -/
theorem single_word_block_no_contribution (opts : RunOptions)
    (common : List String) (pop : Accum) (text : String) (w : String)
    (hne : pySplit text ≠ [])
    (hall : ∀ t ∈ pySplit text, normalize t = w)
    (hw : w ≠ "") (hcw : ¬ w ∈ common)
    (hthr : opts.max_threshold < 1) :
    lookup (parse_text opts common pop text) w = lookup pop w := by
  have hlen : 0 < (pySplit text).length := List.length_pos.mpr hne
  have hc : localCount common text w = (pySplit text).length := by
    unfold localCount
    rw [if_pos ⟨hw, hcw⟩]
    refine List.countP_eq_length.mpr ?_
    intro t ht
    simp [hall t ht]
  have hnr : ¬ ratioLe (localCount common text w) (tokenTotal text)
      opts.max_threshold := by
    rw [hc]
    unfold ratioLe tokenTotal
    have h0 : ((pySplit text).length : ℚ) ≠ 0 := by
      exact_mod_cast Nat.pos_iff_ne_zero.mp hlen
    rw [div_self h0]
    intro hle
    linarith
  rw [lookup_parse_text]
  have hc0 : contrib opts common text w = 0 := by
    unfold contrib
    rw [if_neg]
    rintro ⟨_, hr⟩
    exact hnr hr
  omega

/-- C10 witness: the block "hello hello" at threshold 1/2 leaves the
"hello" entry untouched. -/
theorem single_word_block_no_contribution_witness :
    pySplit "hello hello" ≠ []
    ∧ (∀ t ∈ pySplit "hello hello", normalize t = "hello")
    ∧ "hello" ≠ ""
    ∧ ¬ "hello" ∈ ([] : List String)
    ∧ (RunOptions.mk halfQ true).max_threshold < 1
    ∧ lookup (parse_text (RunOptions.mk halfQ true) [] [("hello", 7)]
          "hello hello") "hello"
        = lookup [("hello", 7)] "hello" :=
  ⟨by decide, by decide, by decide, by decide, by decide,
    single_word_block_no_contribution (RunOptions.mk halfQ true) [] [("hello", 7)]
      "hello hello" "hello" (by decide) (by decide) (by decide) (by decide)
      (by decide)⟩

/-- The text-bearing parts of one submission: its comment bodies (already
expanded and flattened), its title, and its selftext when it is a self
post. -/
structure SubmissionData where
  comments : List String
  title : String
  is_self : Bool
  selftext : String

/-- One submission of the subreddit's top listing: its url and either its
data or the status code of the HTTPError raised while fetching/expanding
it. -/
structure Submission where
  url : String
  fetch : Except Nat SubmissionData

/-- process_submission of word_freqs.py: with include_comments, parse every
flattened comment body, then the title, then the selftext when is_self. -/
def process_submission (opts : RunOptions) (common : List String) (pop : Accum)
    (s : SubmissionData) (include_comments : Bool) : Accum :=
  let pop1 := if include_comments then
      s.comments.foldl (parse_text opts common) pop
    else pop
  let pop2 := parse_text opts common pop1 s.title
  if s.is_self then parse_text opts common pop2 s.selftext else pop2

/-- The diagnostic line process_subreddit writes to stderr when an
HTTPError is caught for one submission. -/
def skipMessage (url : String) (code : Nat) : String :=
  "\nSkipping submission " ++ url ++ " due to HTTP status " ++ toString code
    ++ " error. Continuing...\n"

/-- process_subreddit of word_freqs.py over an already-materialized top
listing: each submission is processed under try/except HTTPError — on
success its texts are ingested, on an HTTP error a skip diagnostic is
appended to the stderr log and the loop continues with the next item. -/
def process_subreddit (opts : RunOptions) (common : List String) :
    List Submission → Accum → List String → Accum × List String
  | [], pop, errs => (pop, errs)
  | s :: rest, pop, errs =>
    match s.fetch with
    | Except.ok d =>
      process_subreddit opts common rest
        (process_submission opts common pop d true) errs
    | Except.error code =>
      process_subreddit opts common rest pop (errs ++ [skipMessage s.url code])

theorem process_subreddit_append (opts : RunOptions) (common : List String) :
    ∀ (l1 l2 : List Submission) (pop : Accum) (errs : List String),
      process_subreddit opts common (l1 ++ l2) pop errs
        = process_subreddit opts common l2
            (process_subreddit opts common l1 pop errs).1
            (process_subreddit opts common l1 pop errs).2 := by
  intro l1
  induction l1 with
  | nil => intro l2 pop errs; simp [process_subreddit]
  | cons s rest ih =>
    intro l2 pop errs
    cases hf : s.fetch with
    | ok d => simp [process_subreddit, hf, ih]
    | error code => simp [process_subreddit, hf, ih]

theorem process_subreddit_fst_errs (opts : RunOptions) (common : List String) :
    ∀ (subs : List Submission) (pop : Accum) (e1 e2 : List String),
      (process_subreddit opts common subs pop e1).1
        = (process_subreddit opts common subs pop e2).1 := by
  intro subs
  induction subs with
  | nil => intro pop e1 e2; simp [process_subreddit]
  | cons s rest ih =>
    intro pop e1 e2
    cases hf : s.fetch with
    | ok d =>
      simp only [process_subreddit, hf]
      exact ih _ _ _
    | error code =>
      simp only [process_subreddit, hf]
      exact ih _ _ _

theorem mem_errs_process_subreddit (opts : RunOptions) (common : List String) :
    ∀ (subs : List Submission) (pop : Accum) (errs : List String) (m : String),
      m ∈ errs → m ∈ (process_subreddit opts common subs pop errs).2 := by
  intro subs
  induction subs with
  | nil => intro pop errs m hm; simpa [process_subreddit] using hm
  | cons s rest ih =>
    intro pop errs m hm
    cases hf : s.fetch with
    | ok d =>
      simp [process_subreddit, hf]
      exact ih _ _ _ hm
    | error code =>
      simp [process_subreddit, hf]
      exact ih _ _ _ (by simp [hm])

/-- C4: a submission whose fetch fails with an HTTP error is skipped —
the final accumulator is exactly the one obtained from the listing with
that item removed (contributions of all other items), and its skip
diagnostic, naming the item's url and the HTTP status, appears in the
stderr log; the traversal always finishes. -/
theorem process_subreddit_skips_failed (opts : RunOptions) (common : List String)
    (pre post : List Submission) (bad : Submission) (code : Nat)
    (hbad : bad.fetch = Except.error code)
    (pop : Accum) (errs : List String) :
    (process_subreddit opts common (pre ++ bad :: post) pop errs).1
      = (process_subreddit opts common (pre ++ post) pop errs).1
    ∧ skipMessage bad.url code
        ∈ (process_subreddit opts common (pre ++ bad :: post) pop errs).2 := by
  rw [process_subreddit_append, process_subreddit_append]
  constructor
  · simp [process_subreddit, hbad]
    exact process_subreddit_fst_errs opts common post _ _ _
  · simp [process_subreddit, hbad]
    exact mem_errs_process_subreddit opts common post _ _ _ (by simp)

/-- C4 witness: of three concrete submissions the second raises HTTP 404;
the accumulator equals that of the listing without it and the skip line
for its url is in the log. -/
theorem process_subreddit_skips_failed_witness :
    (Submission.mk "http-two" (Except.error 404)).fetch = Except.error 404
    ∧ ((process_subreddit (RunOptions.mk halfQ true) []
          ([Submission.mk "http-one" (Except.ok (SubmissionData.mk ["good stuff"] "one title" false ""))]
            ++ Submission.mk "http-two" (Except.error 404)
              :: [Submission.mk "http-three" (Except.ok (SubmissionData.mk [] "three title" true "self body"))])
          [] []).1
        = (process_subreddit (RunOptions.mk halfQ true) []
            ([Submission.mk "http-one" (Except.ok (SubmissionData.mk ["good stuff"] "one title" false ""))]
              ++ [Submission.mk "http-three" (Except.ok (SubmissionData.mk [] "three title" true "self body"))])
            [] []).1
      ∧ skipMessage (Submission.mk "http-two" (Except.error 404)).url 404
          ∈ (process_subreddit (RunOptions.mk halfQ true) []
              ([Submission.mk "http-one" (Except.ok (SubmissionData.mk ["good stuff"] "one title" false ""))]
                ++ Submission.mk "http-two" (Except.error 404)
                  :: [Submission.mk "http-three" (Except.ok (SubmissionData.mk [] "three title" true "self body"))])
              [] []).2) :=
  ⟨rfl,
    process_subreddit_skips_failed (RunOptions.mk halfQ true) []
      [Submission.mk "http-one" (Except.ok (SubmissionData.mk ["good stuff"] "one title" false ""))]
      [Submission.mk "http-three" (Except.ok (SubmissionData.mk [] "three title" true "self body"))]
      (Submission.mk "http-two" (Except.error 404)) 404 rfl [] []⟩

/-- The EXCLUDED_WORDS constant of word_freqs.py. -/
def EXCLUDED_WORDS : List String := ["/", "--", "...", "deleted", ")x"]

/-- Tests that the first list is a prefix of the second (character lists). -/
def startsWithSeg : List Char → List Char → Bool
  | [], _ => true
  | _ :: _, [] => false
  | a :: as, b :: bs => a == b && startsWithSeg as bs

/-- Python substring containment, the test `ew in word`. -/
def containsSub (needle : List Char) : List Char → Bool
  | [] => needle.isEmpty
  | c :: rest => startsWithSeg needle (c :: rest) || containsSub needle rest

/-- Success of Python 2 int(word) on a str: optional surrounding
whitespace, an optional sign, then one or more decimal digits. -/
def pyIsInt (s : List Char) : Bool :=
  let t := ((s.dropWhile pyIsSpace).reverse.dropWhile pyIsSpace).reverse
  let u := match t with
    | c :: rest => if c.toNat = 43 ∨ c.toNat = 45 then rest else c :: rest
    | [] => ([] : List Char)
  !u.isEmpty && u.all (fun c => decide (48 ≤ c.toNat ∧ c.toNat ≤ 57))

/-- The pri flag of the output loop of main(): it stays true iff the word
contains no excluded phrase and does not parse as an integer. -/
def wordPasses (w : String) : Bool :=
  !(EXCLUDED_WORDS.any fun ew => containsSub ew.data w.data) && !(pyIsInt w.data)

/-- Insertion step of sorting the accumulator keys. -/
def insertSorted (w : String) : List String → List String
  | [] => [w]
  | x :: rest => if w < x then w :: x :: rest else x :: insertSorted w rest

/-- The sorted key list, sorted(popular_words.keys()). -/
def sortStrings : List String → List String
  | [] => []
  | x :: rest => insertSorted x (sortStrings rest)

/-- The output pass of main(): visit the accumulator keys in sorted order;
when a word's count exceeds 2 and pri stays true, append the word repeated
count times to the corpus. -/
def render (pop : Accum) : List String :=
  (sortStrings (keysOf pop)).foldl
    (fun out w =>
      if 2 < lookup pop w then
        (if wordPasses w then out ++ List.replicate (lookup pop w) w else out)
      else out) []

theorem mem_render_aux (pop : Accum) (x : String) :
    ∀ (ws : List String) (out : List String),
      x ∈ ws.foldl (fun out w =>
        if 2 < lookup pop w then
          (if wordPasses w then out ++ List.replicate (lookup pop w) w else out)
        else out) out →
      x ∈ out ∨ (2 < lookup pop x ∧ wordPasses x = true) := by
  intro ws
  induction ws with
  | nil => intro out h; exact Or.inl h
  | cons w ws ih =>
    intro out h
    rcases ih _ h with h1 | h1
    · replace h1 : x ∈ (if 2 < lookup pop w then
          (if wordPasses w = true then out ++ List.replicate (lookup pop w) w
          else out)
        else out) := h1
      by_cases h2 : 2 < lookup pop w
      · rw [if_pos h2] at h1
        by_cases h3 : wordPasses w = true
        · rw [if_pos h3] at h1
          rcases List.mem_append.mp h1 with h4 | h4
          · exact Or.inl h4
          · have hx : x = w := List.eq_of_mem_replicate h4
            subst hx
            exact Or.inr ⟨h2, h3⟩
        · rw [if_neg h3] at h1
          exact Or.inl h1
      · rw [if_neg h2] at h1
        exact Or.inl h1
    · exact Or.inr h1

/-- C5: the output pass emits a word only when its accumulated count is
strictly greater than 2, it contains no member of EXCLUDED_WORDS as a
substring, and it does not parse as an integer; a word failing any test
never appears in the corpus. -/
theorem render_emits_only_filtered (pop : Accum) (w : String)
    (h : w ∈ render pop) :
    2 < lookup pop w
    ∧ (∀ ew ∈ EXCLUDED_WORDS, containsSub ew.data w.data = false)
    ∧ pyIsInt w.data = false := by
  unfold render at h
  rcases mem_render_aux pop w _ _ h with h1 | h1
  · simp at h1
  · refine ⟨h1.1, ?_, ?_⟩
    · have hp := h1.2
      unfold wordPasses at hp
      simp only [Bool.and_eq_true, Bool.not_eq_true'] at hp
      intro ew hew
      have := hp.1
      rw [List.any_eq_false] at this
      simpa using this ew hew
    · have hp := h1.2
      unfold wordPasses at hp
      simp only [Bool.and_eq_true, Bool.not_eq_true'] at hp
      exact hp.2

/-- C5 witness: the accumulator entry ("hello", 5) is emitted and indeed
passes all three tests. -/
theorem render_emits_only_filtered_witness :
    "hello" ∈ render [("hello", 5)]
    ∧ (2 < lookup [("hello", 5)] "hello"
        ∧ (∀ ew ∈ EXCLUDED_WORDS, containsSub ew.data "hello".data = false)
        ∧ pyIsInt "hello".data = false) :=
  ⟨by decide, render_emits_only_filtered [("hello", 5)] "hello" (by decide)⟩

end RedditAnalysis
